import Mathlib

/-!
Shallow embedding of the PID tuning application's core
(`examples/pid_tuning_app/pid_tuning_app.py`): the step-response analyzer
(`StepResponseAnalyzer`), the bounded telemetry store (the eight
`deque(maxlen=864000)` series of `PIDTuningApp`), and the min/max extrema
tracker (`update_minmax` / `clear_minmax`).

Python floats are modelled as rationals (ℚ); Python list indexing,
slicing, `int()` truncation, `max()` on a possibly-empty list, and the
exceptions they can raise (`IndexError`, `ValueError`) are modelled
explicitly, since `analyze()` relies on them.
-/

namespace PID

section Core

attribute [local semireducible] Rat.mul Rat.add Rat.inv Rat.sub

/-- Exceptions that the modelled Python code can raise. -/
inductive PyErr where
  | indexError : PyErr
  | valueError : PyErr
deriving DecidableEq

instance {ε α : Type} [DecidableEq ε] [DecidableEq α] : DecidableEq (Except ε α) :=
  fun a b =>
    match a, b with
    | Except.ok x, Except.ok y =>
      if h : x = y then isTrue (by rw [h]) else isFalse (fun hc => h (Except.ok.inj hc))
    | Except.error e, Except.error f =>
      if h : e = f then isTrue (by rw [h]) else isFalse (fun hc => h (Except.error.inj hc))
    | Except.ok _, Except.error _ => isFalse (fun hc => Except.noConfusion hc)
    | Except.error _, Except.ok _ => isFalse (fun hc => Except.noConfusion hc)

/-- Python list element access `l[i]` with negative-index wrap-around,
defaulting to 0 out of range (used only at indices proved in range;
`pyGet` performs the actual bounds check). -/
def pyGetD (l : List ℚ) (i : ℤ) : ℚ :=
  if i < 0 then l.getD ((l.length : ℤ) + i).toNat 0 else l.getD i.toNat 0

/-- Python index validity: `-len(l) ≤ i < len(l)`. -/
def pyInBounds (l : List ℚ) (i : ℤ) : Bool :=
  decide (-(l.length : ℤ) ≤ i) && decide (i < (l.length : ℤ))

/-- Python list element access `l[i]`: `IndexError` out of range. -/
def pyGet (l : List ℚ) (i : ℤ) : Except PyErr ℚ :=
  if pyInBounds l i then Except.ok (pyGetD l i) else Except.error PyErr.indexError

/-- Python slice `l[a:]` (negative start counts from the end, clamped). -/
def pySliceFrom (l : List ℚ) (a : ℤ) : List ℚ :=
  if 0 ≤ a then l.drop a.toNat else l.drop ((l.length : ℤ) + a).toNat

/-- Python `max(l)`: `ValueError` on an empty list. -/
def pyMax (l : List ℚ) : Except PyErr ℚ :=
  match l with
  | [] => Except.error PyErr.valueError
  | x :: xs => Except.ok (xs.foldl max x)

/-- `numpy.mean` of a list (the code only applies it to nonempty slices). -/
def npMean (l : List ℚ) : ℚ := l.sum / (l.length : ℚ)

/-- Python `int()` conversion of a float: truncation toward zero. -/
def pyInt (q : ℚ) : ℤ := if 0 ≤ q then ⌊q⌋ else ⌈q⌉

/-- Python `range(a, b)` as a list of integers. -/
def intRange (a b : ℤ) : List ℤ :=
  (List.range (b - a).toNat).map (fun (k : ℕ) => a + (k : ℤ))

/-- The four parallel trace sequences accumulated by `add_data`. -/
structure Trace where
  time : List ℚ
  pv : List ℚ
  sp : List ℚ
  output : List ℚ
deriving DecidableEq

/-- The metrics dictionary built by `analyze()`; an absent key is `none`. -/
structure Metrics where
  rise_time : Option ℚ
  overshoot : Option ℚ
  settling_time : Option ℚ
  steady_state_error : Option ℚ
deriving DecidableEq

/-- Whether the setpoint jumps by more than 0.1 at index `i`
(`abs(sp[i] - sp[i-1]) > 0.1`). -/
def spJump (sp : List ℚ) (i : ℕ) : Prop :=
  (1 : ℚ)/10 < |sp.getD i 0 - sp.getD (i-1) 0|

instance (sp : List ℚ) (i : ℕ) : Decidable (spJump sp i) :=
  inferInstanceAs (Decidable (_ < _))

/-- Scan of `for i in range(1, len(sp))` for the first setpoint jump,
starting at index `i`; `fuel` bounds the recursion structurally. -/
def findStepAux (sp : List ℚ) : ℕ → ℕ → Option ℕ
  | 0, _ => none
  | fuel+1, i =>
    if i < sp.length then
      if spJump sp i then some i else findStepAux sp fuel (i+1)
    else none

/-- First index `i ≥ 1` with `abs(sp[i] - sp[i-1]) > 0.1` (step detection
loop of `analyze()`). -/
def findStep (sp : List ℚ) : Option ℕ := findStepAux sp sp.length 1

/-- `self.step_start_time = self.time[i]`. -/
def stepStart (tr : Trace) (i : ℕ) : ℚ := tr.time.getD i 0

/-- `self.initial_value = np.mean(self.pv[max(0, i-10):i])`. -/
def initialValue (tr : Trace) (i : ℕ) : ℚ :=
  npMean ((tr.pv.drop (i - 10)).take (i - (i - 10)))

/-- `self.final_value = self.sp[i]`. -/
def finalValue (tr : Trace) (i : ℕ) : ℚ := tr.sp.getD i 0

/-- `self.step_amplitude = self.final_value - self.initial_value`. -/
def stepAmp (tr : Trace) (i : ℕ) : ℚ := finalValue tr i - initialValue tr i

/-- `rise_10 = self.initial_value + 0.1 * self.step_amplitude`. -/
def rise10 (tr : Trace) (i : ℕ) : ℚ := initialValue tr i + 1/10 * stepAmp tr i

/-- `rise_90 = self.initial_value + 0.9 * self.step_amplitude`. -/
def rise90 (tr : Trace) (i : ℕ) : ℚ := initialValue tr i + 9/10 * stepAmp tr i

/-- `int(self.step_start_time * 10)`: the assumed-10 Hz scan start index. -/
def riseStartIdx (tr : Trace) (i : ℕ) : ℤ := pyInt (stepStart tr i * 10)

/-- Indices visited by `for i in range(int(self.step_start_time * 10), len(self.pv))`. -/
def scanIdxs (tr : Trace) (i : ℕ) : List ℤ :=
  intRange (riseStartIdx tr i) (tr.pv.length : ℤ)

/-- The rise-time scan loop: finds `rise_start_idx` (first `pv[i] >= rise_10`)
and `rise_end_idx` (first `pv[i] >= rise_90`, breaking the loop there);
`acc` is the current `rise_start_idx`. -/
def riseScan (pv : List ℚ) (r10 r90 : ℚ) : List ℤ → Option ℤ → Except PyErr (Option ℤ × Option ℤ)
  | [], acc => Except.ok (acc, none)
  | i :: rest, acc =>
    match pyGet pv i with
    | Except.error e => Except.error e
    | Except.ok v =>
      let acc2 := if acc = none ∧ r10 ≤ v then some i else acc
      if r90 ≤ v then Except.ok (acc2, some i)
      else riseScan pv r10 r90 rest acc2

/-- The rise-time scan of `analyze()` on trace `tr` with step index `i`. -/
def riseResult (tr : Trace) (i : ℕ) : Except PyErr (Option ℤ × Option ℤ) :=
  riseScan tr.pv (rise10 tr i) (rise90 tr i) (scanIdxs tr i) none

/-- Indices visited by `for i in range(len(self.pv) - 1, int(self.step_start_time * 10), -1)`. -/
def settleIdxs (tr : Trace) (i : ℕ) : List ℤ :=
  (intRange (riseStartIdx tr i + 1) (tr.pv.length : ℤ)).reverse

/-- The settling-time scan: first sample from the end outside the band
gives `time[i] - step_start_time`; if none is, `time[-1] - step_start_time`. -/
def settleScan (pv tme : List ℚ) (fv band sst : ℚ) : List ℤ → ℚ
  | [] => pyGetD tme (-1) - sst
  | i :: rest =>
    if band < |pyGetD pv i - fv| then pyGetD tme i - sst
    else settleScan pv tme fv band sst rest

/-- The `rise_time` entry: `metrics['rise_time'] = time[rise_end_idx] -
time[rise_start_idx]`, guarded by the Python truthiness test
`if rise_start_idx and rise_end_idx` (`None` and index `0` are falsy). -/
def riseTimeOf (tme : List ℚ) (sIdx eIdx : Option ℤ) : Option ℚ :=
  match sIdx, eIdx with
  | some s, some e =>
    if s ≠ 0 ∧ e ≠ 0 then some (pyGetD tme e - pyGetD tme s) else none
  | _, _ => none

/-- Body of `analyze()` after step detection succeeded at index `i`:
rise time, overshoot (`max` may raise `ValueError` on an empty slice),
settling time, steady-state error. -/
def analyzeFrom (tr : Trace) (i : ℕ) : Except PyErr (Option Metrics) :=
  match riseResult tr i with
  | Except.error e => Except.error e
  | Except.ok (sIdx, eIdx) =>
    match pyMax (pySliceFrom tr.pv (riseStartIdx tr i)) with
    | Except.error e => Except.error e
    | Except.ok maxPv =>
      Except.ok (some
        { rise_time := riseTimeOf tr.time sIdx eIdx
          overshoot := some ((maxPv - finalValue tr i) / stepAmp tr i * 100)
          settling_time := some (settleScan tr.pv tr.time (finalValue tr i)
            (2/100 * stepAmp tr i) (stepStart tr i) (settleIdxs tr i))
          steady_state_error := some (finalValue tr i - npMean (pySliceFrom tr.pv (-20))) })

/-- `StepResponseAnalyzer.analyze` as a function of the recorded trace:
`None` (no metrics) on fewer than 10 samples or no detected step. -/
def analyze (tr : Trace) : Except PyErr (Option Metrics) :=
  if tr.time.length < 10 then Except.ok none
  else
    match findStep tr.sp with
    | none => Except.ok none
    | some i => analyzeFrom tr i

/-- State of `StepResponseAnalyzer`: the four trace lists plus the step
fields written by `analyze()` (as left by `reset()` / the last call). -/
structure StepResponseAnalyzer where
  time : List ℚ
  pv : List ℚ
  sp : List ℚ
  output : List ℚ
  step_start_time : Option ℚ
  initial_value : ℚ
  final_value : ℚ
  step_amplitude : ℚ
deriving DecidableEq

/-- `reset()`: empty lists, `step_start_time = None`, numeric fields 0. -/
def StepResponseAnalyzer.reset : StepResponseAnalyzer := ⟨[], [], [], [], none, 0, 0, 0⟩

/-- `add_data(t, pv, sp, output)`: append one sample to the four lists. -/
def StepResponseAnalyzer.add_data (a : StepResponseAnalyzer) (t pv sp output : ℚ) :
    StepResponseAnalyzer :=
  { a with
    time := a.time ++ [t]
    pv := a.pv ++ [pv]
    sp := a.sp ++ [sp]
    output := a.output ++ [output] }

/-- The four trace lists of the analyzer state. -/
def StepResponseAnalyzer.toTrace (a : StepResponseAnalyzer) : Trace :=
  ⟨a.time, a.pv, a.sp, a.output⟩

/-- `analyze()` as a state transformer: when a step is detected it stores
`step_start_time`, `initial_value`, `final_value`, `step_amplitude`, and
those freshly written values feed the metrics computation (`analyzeFrom`). -/
def StepResponseAnalyzer.analyzeS (a : StepResponseAnalyzer) :
    StepResponseAnalyzer × Except PyErr (Option Metrics) :=
  if a.time.length < 10 then (a, Except.ok none)
  else
    match findStep a.sp with
    | none => (a, Except.ok none)
    | some i =>
      ({ a with
         step_start_time := some (stepStart a.toTrace i)
         initial_value := initialValue a.toTrace i
         final_value := finalValue a.toTrace i
         step_amplitude := stepAmp a.toTrace i },
       analyzeFrom a.toTrace i)

/-- Round half-to-even to an integer: the rounding used by Python float
formatting on exactly representable values. -/
def rhe (q : ℚ) : ℤ :=
  if Int.fract q < 1/2 then ⌊q⌋
  else if 1/2 < Int.fract q then ⌊q⌋ + 1
  else if ⌊q⌋ % 2 = 0 then ⌊q⌋ else ⌊q⌋ + 1

/-- Python `float(f"{q:.{d}f}")`: the value the tracker stores after
formatting with `d` decimal digits — `q` rounded at `d` decimal places. -/
def pyFmt (d : ℕ) (q : ℚ) : ℚ := (rhe (q * (10:ℚ)^d) : ℚ) / (10:ℚ)^d

/-- The six min/max display variables of `PIDTuningApp`; `none` is "N/A"
and `some c` the parsed numeric content of the stored string. -/
structure MinMaxState where
  (pv_min pv_max error_min error_max output_min output_max : Option ℚ)
deriving DecidableEq

/-- The all-"N/A" tracker state (initial, and after `clear_minmax`). -/
def MinMaxState.na : MinMaxState := ⟨none, none, none, none, none, none⟩

/-- `PIDTuningApp.update_minmax(pv, sp, output, error)`: each tracked value
is stored through its display format (`.2f` for pv and error, `.0f` for
output), so every update rounds — unset becomes the rounded observation,
otherwise the min/max of the observation against the parsed stored value,
rounded again. `sp` is accepted but unused, as in the source. -/
def update_minmax (m : MinMaxState) (pv _sp output error : ℚ) : MinMaxState :=
  { pv_min := some (match m.pv_min with | none => pyFmt 2 pv | some c => pyFmt 2 (min pv c))
    pv_max := some (match m.pv_max with | none => pyFmt 2 pv | some c => pyFmt 2 (max pv c))
    error_min := some (match m.error_min with
      | none => pyFmt 2 error | some c => pyFmt 2 (min error c))
    error_max := some (match m.error_max with
      | none => pyFmt 2 error | some c => pyFmt 2 (max error c))
    output_min := some (match m.output_min with
      | none => pyFmt 0 output | some c => pyFmt 0 (min output c))
    output_max := some (match m.output_max with
      | none => pyFmt 0 output | some c => pyFmt 0 (max output c)) }

/-- A decoded `"data"` message: one telemetry sample (`t` is `msg["time"]`
already converted to seconds). -/
structure Sample where
  (t pv sp output error p_term i_term d_term : ℚ)
deriving DecidableEq

/-- `deque(maxlen=cap).append(x)`: at capacity, the oldest entry is
evicted in the same step. -/
def dequeAppend (cap : ℕ) (l : List ℚ) (x : ℚ) : List ℚ :=
  if l.length < cap then l ++ [x] else l.drop 1 ++ [x]

/-- `self.max_points = 864000` — 24 hours at 10 Hz. -/
def max_points : ℕ := 864000

/-- The eight parallel telemetry deques of `PIDTuningApp`, all created
with `maxlen=self.max_points`. -/
structure Store where
  (time_data pv_data sp_data output_data error_data : List ℚ)
  (p_term_data i_term_data d_term_data : List ℚ)
deriving DecidableEq

/-- The empty store (application startup, and after `clear_plot`). -/
def Store.empty : Store := ⟨[], [], [], [], [], [], [], []⟩

/-- The append block of `process_data` for one `"data"` message. -/
def ingest (st : Store) (s : Sample) : Store :=
  { time_data := dequeAppend max_points st.time_data s.t
    pv_data := dequeAppend max_points st.pv_data s.pv
    sp_data := dequeAppend max_points st.sp_data s.sp
    output_data := dequeAppend max_points st.output_data s.output
    error_data := dequeAppend max_points st.error_data s.error
    p_term_data := dequeAppend max_points st.p_term_data s.p_term
    i_term_data := dequeAppend max_points st.i_term_data s.i_term
    d_term_data := dequeAppend max_points st.d_term_data s.d_term }

/-- The data-holding state of `PIDTuningApp` relevant to the claims: the
telemetry store and the extrema tracker. -/
structure AppData where
  store : Store
  minmax : MinMaxState
deriving DecidableEq

/-- Startup state: empty deques, all six trackers "N/A". -/
def AppData.init : AppData := ⟨Store.empty, MinMaxState.na⟩

/-- Effect of one `"data"` message in `process_data`: append the sample to
all eight deques, then `update_minmax(pv, sp, output, error)`. -/
def process_data (d : AppData) (s : Sample) : AppData :=
  { store := ingest d.store s
    minmax := update_minmax d.minmax s.pv s.sp s.output s.error }

/-- `clear_plot()`: `clear()` on all eight deques (the `update_plot` call
is GUI-only). -/
def clear_plot (d : AppData) : AppData := { d with store := Store.empty }

/-- `clear_minmax()`: set all six tracked values back to "N/A". -/
def clear_minmax (d : AppData) : AppData := { d with minmax := MinMaxState.na }

/-- First element of `idxs` whose pv value reaches threshold `thr`. -/
def firstGe (pv : List ℚ) (thr : ℚ) (idxs : List ℤ) : Option ℤ :=
  idxs.find? (fun j => decide (thr ≤ pyGetD pv j))

/-- Prefix of `idxs` up to and including the first element reaching `thr`
(the whole list when none does): the indices the rise loop visits before
its `break`. -/
def upToFirst (pv : List ℚ) (thr : ℚ) (idxs : List ℤ) : List ℤ :=
  idxs.take (idxs.findIdx (fun j => decide (thr ≤ pyGetD pv j)) + 1)

/-- One sample fed to the extrema tracker, as `process_data` does it. -/
def observe (m : MinMaxState) (s : Sample) : MinMaxState :=
  update_minmax m s.pv s.sp s.output s.error

/-- A 10-sample recorded trace whose detected step has `step_start_time = 10`
(all timestamps 10, step at sample 9), so `int(step_start_time*10) = 100`
lies past the end of the trace. -/
def cx1 : Trace :=
  { time := List.replicate 10 10
    pv := List.replicate 10 0
    sp := List.replicate 9 0 ++ [1]
    output := List.replicate 10 0 }

/-- A 10-sample trace with a negative step detected at sample 1
(`step_start_time = 0.05`, scan start index 0) whose pv already satisfies
both rise thresholds at index 0. -/
def cx3 : Trace :=
  { time := (List.range 10).map (fun (k : ℕ) => (k : ℚ) / 20)
    pv := List.replicate 10 0
    sp := 0 :: List.replicate 9 (-1)
    output := List.replicate 10 0 }

/-- A 10 Hz-aligned trace with a unit step at sample 1 and a first-order-like
pv response crossing 10% at sample 3 and 90% at sample 4. -/
def t3 : Trace :=
  { time := (List.range 10).map (fun (k : ℕ) => (k : ℚ) / 10)
    pv := [0, 0, 0, 1/2, 1, 1, 1, 1, 1, 1]
    sp := 0 :: List.replicate 9 1
    output := List.replicate 10 0 }

/-- The metrics `analyze` produces on `t3`. -/
def m3 : Metrics :=
  { rise_time := some (1/10)
    overshoot := some 0
    settling_time := some (1/5)
    steady_state_error := some (7/20) }

/-- Copy of `t3` used by the C6 witness. -/
def t6 : Trace :=
  { time := (List.range 10).map (fun (k : ℕ) => (k : ℚ) / 10)
    pv := [0, 0, 0, 1/2, 1, 1, 1, 1, 1, 1]
    sp := 0 :: List.replicate 9 1
    output := List.replicate 10 0 }

/-- The metrics `analyze` produces on `t6`. -/
def m6 : Metrics :=
  { rise_time := some (1/10)
    overshoot := some 0
    settling_time := some (1/5)
    steady_state_error := some (7/20) }

/-- Copy of `t3` used by the C10 witness. -/
def t10 : Trace :=
  { time := (List.range 10).map (fun (k : ℕ) => (k : ℚ) / 10)
    pv := [0, 0, 0, 1/2, 1, 1, 1, 1, 1, 1]
    sp := 0 :: List.replicate 9 1
    output := List.replicate 10 0 }

/-- The metrics `analyze` produces on `t10`. -/
def m10 : Metrics :=
  { rise_time := some (1/10)
    overshoot := some 0
    settling_time := some (1/5)
    steady_state_error := some (7/20) }

/-- An analyzer state holding the spec scenario of section 8: setpoint
constant at 25.0 for samples 0..19, jumping to 50.0 at sample 20, sampled
at 10 Hz with pv steady at 25. -/
def w5 : StepResponseAnalyzer :=
  { time := (List.range 25).map (fun (k : ℕ) => (k : ℚ) / 10)
    pv := List.replicate 25 25
    sp := List.replicate 20 25 ++ List.replicate 5 50
    output := List.replicate 25 0
    step_start_time := none
    initial_value := 0
    final_value := 0
    step_amplitude := 0 }

theorem findStepAux_eq_none_iff (sp : List ℚ) (fuel : ℕ) :
    ∀ (i : ℕ), sp.length ≤ i + fuel →
      (findStepAux sp fuel i = none ↔ ∀ j, i ≤ j → j < sp.length → ¬ spJump sp j) := by
  induction fuel with
  | zero =>
    intro i hle
    simp only [findStepAux]
    constructor
    · intro _ j hij hj
      exact absurd hj (by omega)
    · intro _
      trivial
  | succ fuel ih =>
    intro i hle
    simp only [findStepAux]
    by_cases hi : i < sp.length
    · simp only [if_pos hi]
      by_cases hj : spJump sp i
      · simp only [if_pos hj]
        constructor
        · intro h
          exact absurd h (by simp)
        · intro h
          exact absurd hj (h i le_rfl hi)
      · simp only [if_neg hj]
        rw [ih (i+1) (by omega)]
        constructor
        · intro h j hij hjlen
          rcases Nat.eq_or_lt_of_le hij with rfl | h2
          · exact hj
          · exact h j h2 hjlen
        · intro h j hij hjlen
          exact h j (by omega) hjlen
    · simp only [if_neg hi]
      constructor
      · intro _ j hij hjlen
        exact absurd hjlen (by omega)
      · intro _
        trivial

theorem findStep_eq_none_iff (sp : List ℚ) :
    findStep sp = none ↔ ∀ j, 1 ≤ j → j < sp.length → ¬ spJump sp j :=
  findStepAux_eq_none_iff sp sp.length 1 (by omega)

theorem findStepAux_eq_some_iff (sp : List ℚ) (fuel : ℕ) :
    ∀ (i k : ℕ), sp.length ≤ i + fuel →
      (findStepAux sp fuel i = some k ↔
        i ≤ k ∧ k < sp.length ∧ spJump sp k ∧ ∀ j, i ≤ j → j < k → ¬ spJump sp j) := by
  induction fuel with
  | zero =>
    intro i k hle
    simp only [findStepAux]
    constructor
    · intro h
      exact absurd h (by simp)
    · rintro ⟨hik, hk, -, -⟩
      exact absurd hk (by omega)
  | succ fuel ih =>
    intro i k hle
    simp only [findStepAux]
    by_cases hi : i < sp.length
    · simp only [if_pos hi]
      by_cases hj : spJump sp i
      · simp only [if_pos hj]
        constructor
        · intro h
          have hik := Option.some.inj h
          subst hik
          exact ⟨le_rfl, hi, hj, fun j h1 h2 => absurd h1 (by omega)⟩
        · rintro ⟨hik, hk, hjk, hmin⟩
          rcases Nat.eq_or_lt_of_le hik with rfl | hlt
          · rfl
          · exact absurd hj (hmin i le_rfl hlt)
      · simp only [if_neg hj]
        rw [ih (i+1) k (by omega)]
        constructor
        · rintro ⟨h1, h2, h3, h4⟩
          refine ⟨by omega, h2, h3, fun j hij hjk => ?_⟩
          rcases Nat.eq_or_lt_of_le hij with rfl | hlt
          · exact hj
          · exact h4 j (by omega) hjk
        · rintro ⟨h1, h2, h3, h4⟩
          refine ⟨?_, h2, h3, fun j hij hjk => h4 j (by omega) hjk⟩
          rcases Nat.eq_or_lt_of_le h1 with rfl | hlt
          · exact absurd h3 hj
          · omega
    · simp only [if_neg hi]
      constructor
      · intro h
        exact absurd h (by simp)
      · rintro ⟨hik, hk, -, -⟩
        exact absurd hk (by omega)

theorem findStep_eq_some_iff (sp : List ℚ) (k : ℕ) :
    findStep sp = some k ↔
      1 ≤ k ∧ k < sp.length ∧ spJump sp k ∧ ∀ j, 1 ≤ j → j < k → ¬ spJump sp j :=
  findStepAux_eq_some_iff sp sp.length 1 k (by omega)

theorem mem_intRange {a b j : ℤ} : j ∈ intRange a b ↔ a ≤ j ∧ j < b := by
  simp only [intRange, List.mem_map, List.mem_range]
  constructor
  · rintro ⟨k, hk, rfl⟩
    omega
  · rintro ⟨h1, h2⟩
    exact ⟨(j - a).toNat, by omega, by omega⟩

theorem pyGet_eq_ok {l : List ℚ} {i : ℤ} (h : pyInBounds l i = true) :
    pyGet l i = Except.ok (pyGetD l i) := by
  rw [pyGet, if_pos h]

theorem pyMax_ok_of_ne_nil {l : List ℚ} (h : l ≠ []) : ∃ v, pyMax l = Except.ok v := by
  cases l with
  | nil => exact absurd rfl h
  | cons x xs => exact ⟨_, rfl⟩

theorem pySliceFrom_ne_nil {l : List ℚ} {a : ℤ} (h0 : 0 < l.length)
    (hlt : a < (l.length : ℤ)) : pySliceFrom l a ≠ [] := by
  rw [pySliceFrom]
  by_cases ha : 0 ≤ a
  · rw [if_pos ha, Ne, List.drop_eq_nil_iff]
    omega
  · rw [if_neg ha, Ne, List.drop_eq_nil_iff]
    omega

theorem riseScan_eq (pv : List ℚ) (r10 r90 : ℚ) :
    ∀ (idxs : List ℤ) (acc : Option ℤ), (∀ j ∈ idxs, pyInBounds pv j = true) →
      riseScan pv r10 r90 idxs acc =
        Except.ok (acc.or (firstGe pv r10 (upToFirst pv r90 idxs)), firstGe pv r90 idxs) := by
  intro idxs
  induction idxs with
  | nil =>
    intro acc _
    simp [riseScan, firstGe, upToFirst]
  | cons j rest ih =>
    intro acc hin
    have hj : pyInBounds pv j = true := hin j (List.mem_cons_self _ _)
    have hrest : ∀ x ∈ rest, pyInBounds pv x = true :=
      fun x hx => hin x (List.mem_cons_of_mem _ hx)
    simp only [riseScan, pyGet_eq_ok hj]
    by_cases h90 : r90 ≤ pyGetD pv j
    · simp only [if_pos h90]
      have e1 : firstGe pv r90 (j :: rest) = some j :=
        List.find?_cons_of_pos _ (by simpa using h90)
      have e2 : upToFirst pv r90 (j :: rest) = [j] := by
        simp [upToFirst, List.findIdx_cons, h90]
      rw [e1, e2]
      cases acc with
      | some a => simp
      | none =>
        by_cases h10 : r10 ≤ pyGetD pv j
        · simp [firstGe, h10]
        · simp [firstGe, h10]
    · simp only [if_neg h90]
      rw [ih _ hrest]
      have e1 : firstGe pv r90 (j :: rest) = firstGe pv r90 rest :=
        List.find?_cons_of_neg _ (by simpa using h90)
      have e2 : upToFirst pv r90 (j :: rest) = j :: upToFirst pv r90 rest := by
        simp [upToFirst, List.findIdx_cons, h90, List.take_succ_cons]
      rw [e1, e2]
      cases acc with
      | some a => simp
      | none =>
        by_cases h10 : r10 ≤ pyGetD pv j
        · simp [firstGe, h10]
        · simp [firstGe, h10]

theorem settleScan_eq (pv tme : List ℚ) (fv band sst : ℚ) :
    ∀ idxs : List ℤ, settleScan pv tme fv band sst idxs =
      (match idxs.find? (fun j => decide (band < |pyGetD pv j - fv|)) with
       | some j => pyGetD tme j - sst
       | none => pyGetD tme (-1) - sst) := by
  intro idxs
  induction idxs with
  | nil => rfl
  | cons j rest ih =>
    by_cases h : band < |pyGetD pv j - fv|
    · rw [settleScan, if_pos h, List.find?_cons_of_pos _ (by simpa using h)]
    · rw [settleScan, if_neg h, List.find?_cons_of_neg _ (by simpa using h), ih]

theorem dequeAppend_length {cap : ℕ} (hcap : 0 < cap) {l : List ℚ} (hl : l.length ≤ cap)
    (x : ℚ) : (dequeAppend cap l x).length ≤ cap := by
  rw [dequeAppend]
  by_cases h : l.length < cap
  · rw [if_pos h]
    simp
    omega
  · rw [if_neg h]
    simp
    omega

theorem foldl_dequeAppend {cap : ℕ} (hcap : 0 < cap) :
    ∀ (l : List ℚ) (s : List ℚ), s.length ≤ cap →
      l.foldl (dequeAppend cap) s = (s ++ l).drop (s.length + l.length - cap) := by
  intro l
  induction l with
  | nil =>
    intro s hs
    simp only [List.foldl_nil, List.append_nil, List.length_nil]
    rw [Nat.add_zero, Nat.sub_eq_zero_of_le hs, List.drop_zero]
  | cons x t ih =>
    intro s hs
    simp only [List.foldl_cons]
    rw [dequeAppend]
    by_cases h : s.length < cap
    · rw [if_pos h, ih (s ++ [x]) (by simp; omega)]
      rw [List.append_assoc, List.singleton_append]
      congr 1
      simp
      omega
    · rw [if_neg h]
      have hsc : s.length = cap := by omega
      have hs1 : s ≠ [] := by
        intro he
        rw [he] at hsc
        simp at hsc
        omega
      rw [ih (s.drop 1 ++ [x]) (by simp; omega)]
      have e1 : s.drop 1 ++ [x] ++ t = (s ++ x :: t).drop 1 := by
        rw [List.drop_append_of_le_length (by omega), List.append_assoc,
          List.singleton_append]
      rw [e1, List.drop_drop]
      congr 1
      simp
      omega

theorem foldl_process_data_store :
    ∀ (l : List Sample) (d : AppData), (l.foldl process_data d).store = l.foldl ingest d.store := by
  intro l
  induction l with
  | nil => intro d; rfl
  | cons s rest ih =>
    intro d
    simp only [List.foldl_cons]
    rw [ih]
    rfl

theorem foldl_ingest_series :
    ∀ (l : List Sample) (st : Store),
      (l.foldl ingest st).time_data
          = (l.map Sample.t).foldl (dequeAppend max_points) st.time_data ∧
      (l.foldl ingest st).pv_data
          = (l.map Sample.pv).foldl (dequeAppend max_points) st.pv_data ∧
      (l.foldl ingest st).sp_data
          = (l.map Sample.sp).foldl (dequeAppend max_points) st.sp_data ∧
      (l.foldl ingest st).output_data
          = (l.map Sample.output).foldl (dequeAppend max_points) st.output_data ∧
      (l.foldl ingest st).error_data
          = (l.map Sample.error).foldl (dequeAppend max_points) st.error_data ∧
      (l.foldl ingest st).p_term_data
          = (l.map Sample.p_term).foldl (dequeAppend max_points) st.p_term_data ∧
      (l.foldl ingest st).i_term_data
          = (l.map Sample.i_term).foldl (dequeAppend max_points) st.i_term_data ∧
      (l.foldl ingest st).d_term_data
          = (l.map Sample.d_term).foldl (dequeAppend max_points) st.d_term_data := by
  intro l
  induction l with
  | nil =>
    intro st
    exact ⟨rfl, rfl, rfl, rfl, rfl, rfl, rfl, rfl⟩
  | cons s rest ih =>
    intro st
    simpa only [List.foldl_cons, List.map_cons] using ih (ingest st s)

theorem rhe_lb (q : ℚ) : ⌊q⌋ ≤ rhe q := by
  rw [rhe]
  split_ifs <;> omega

theorem rhe_ub (q : ℚ) : rhe q ≤ ⌊q⌋ + 1 := by
  rw [rhe]
  split_ifs <;> omega

theorem rhe_mono : Monotone rhe := by
  intro p q hpq
  have hfl : ⌊p⌋ ≤ ⌊q⌋ := Int.floor_le_floor hpq
  rcases Int.lt_or_le ⌊p⌋ ⌊q⌋ with hlt | hge
  · calc rhe p ≤ ⌊p⌋ + 1 := rhe_ub p
      _ ≤ ⌊q⌋ := by omega
      _ ≤ rhe q := rhe_lb q
  · have hde : ⌊p⌋ = ⌊q⌋ := le_antisymm hfl hge
    have hfr : Int.fract p ≤ Int.fract q := by
      rw [Int.fract, Int.fract, hde]
      linarith
    rw [rhe, rhe, hde]
    split_ifs <;> first
      | omega
      | (exfalso; linarith)

theorem rhe_intCast (n : ℤ) : rhe (n : ℚ) = n := by
  rw [rhe]
  simp [Int.fract_intCast]

theorem pyFmt_mono (d : ℕ) : Monotone (pyFmt d) := by
  intro p q hpq
  rw [pyFmt, pyFmt]
  have h10 : (0:ℚ) < (10:ℚ)^d := by positivity
  have h1 : rhe (p * (10:ℚ)^d) ≤ rhe (q * (10:ℚ)^d) :=
    rhe_mono (mul_le_mul_of_nonneg_right hpq (le_of_lt h10))
  have h2 : ((rhe (p * (10:ℚ)^d) : ℤ) : ℚ) ≤ ((rhe (q * (10:ℚ)^d) : ℤ) : ℚ) := by
    exact_mod_cast h1
  exact div_le_div_of_nonneg_right h2 (le_of_lt h10)

theorem pyFmt_idem (d : ℕ) (x : ℚ) : pyFmt d (pyFmt d x) = pyFmt d x := by
  simp only [pyFmt]
  have h10 : ((10:ℚ)^d) ≠ 0 := by positivity
  rw [div_mul_cancel₀ _ h10, rhe_intCast]

theorem pyFmt_min (d : ℕ) (x y : ℚ) : pyFmt d (min x y) = min (pyFmt d x) (pyFmt d y) :=
  (pyFmt_mono d).map_min

theorem pyFmt_max (d : ℕ) (x y : ℚ) : pyFmt d (max x y) = max (pyFmt d x) (pyFmt d y) :=
  (pyFmt_mono d).map_max

theorem foldl_round_min (r : ℚ → ℚ) (hkey : ∀ x y, r (min x y) = min (r x) (r y))
    (hid : ∀ x, r (r x) = r x) :
    ∀ (xs : List ℚ) (c : ℚ), r c = c →
      xs.foldl (fun acc x => r (min x acc)) c = (xs.map r).foldl min c := by
  intro xs
  induction xs with
  | nil =>
    intro c _
    rfl
  | cons x rest ih =>
    intro c hc
    simp only [List.foldl_cons, List.map_cons]
    have h1 : r (min x c) = min (r x) c := by rw [hkey, hc]
    rw [h1, min_comm c (r x)]
    apply ih
    rw [hkey, hid, hc]

theorem foldl_round_max (r : ℚ → ℚ) (hkey : ∀ x y, r (max x y) = max (r x) (r y))
    (hid : ∀ x, r (r x) = r x) :
    ∀ (xs : List ℚ) (c : ℚ), r c = c →
      xs.foldl (fun acc x => r (max x acc)) c = (xs.map r).foldl max c := by
  intro xs
  induction xs with
  | nil =>
    intro c _
    rfl
  | cons x rest ih =>
    intro c hc
    simp only [List.foldl_cons, List.map_cons]
    have h1 : r (max x c) = max (r x) c := by rw [hkey, hc]
    rw [h1, max_comm c (r x)]
    apply ih
    rw [hkey, hid, hc]

theorem foldl_track_min_some (r : ℚ → ℚ) (p : Sample → ℚ) :
    ∀ (l : List Sample) (c : ℚ),
      l.foldl (fun acc s => some (match acc with
        | none => r (p s) | some c0 => r (min (p s) c0))) (some c)
        = some (l.foldl (fun acc s => r (min (p s) acc)) c) := by
  intro l
  induction l with
  | nil =>
    intro c
    rfl
  | cons s rest ih =>
    intro c
    simp only [List.foldl_cons]
    exact ih _

theorem foldl_track_max_some (r : ℚ → ℚ) (p : Sample → ℚ) :
    ∀ (l : List Sample) (c : ℚ),
      l.foldl (fun acc s => some (match acc with
        | none => r (p s) | some c0 => r (max (p s) c0))) (some c)
        = some (l.foldl (fun acc s => r (max (p s) acc)) c) := by
  intro l
  induction l with
  | nil =>
    intro c
    rfl
  | cons s rest ih =>
    intro c
    simp only [List.foldl_cons]
    exact ih _

theorem foldl_track_min_none (r : ℚ → ℚ) (p : Sample → ℚ)
    (hkey : ∀ x y, r (min x y) = min (r x) (r y)) (hid : ∀ x, r (r x) = r x)
    (l : List Sample) :
    l.foldl (fun acc s => some (match acc with
      | none => r (p s) | some c0 => r (min (p s) c0))) none
      = (l.map (fun s => r (p s))).min? := by
  cases l with
  | nil => rfl
  | cons s rest =>
    simp only [List.foldl_cons, List.map_cons]
    rw [List.min?_cons', foldl_track_min_some r p rest (r (p s))]
    congr 1
    calc rest.foldl (fun acc s2 => r (min (p s2) acc)) (r (p s))
        = (rest.map p).foldl (fun acc v => r (min v acc)) (r (p s)) := by
          rw [List.foldl_map]
      _ = ((rest.map p).map r).foldl min (r (p s)) :=
          foldl_round_min r hkey hid _ _ (hid _)
      _ = (rest.map (fun s2 => r (p s2))).foldl min (r (p s)) := by
          rw [List.map_map]
          rfl

theorem foldl_track_max_none (r : ℚ → ℚ) (p : Sample → ℚ)
    (hkey : ∀ x y, r (max x y) = max (r x) (r y)) (hid : ∀ x, r (r x) = r x)
    (l : List Sample) :
    l.foldl (fun acc s => some (match acc with
      | none => r (p s) | some c0 => r (max (p s) c0))) none
      = (l.map (fun s => r (p s))).max? := by
  cases l with
  | nil => rfl
  | cons s rest =>
    simp only [List.foldl_cons, List.map_cons]
    rw [List.max?_cons', foldl_track_max_some r p rest (r (p s))]
    congr 1
    calc rest.foldl (fun acc s2 => r (max (p s2) acc)) (r (p s))
        = (rest.map p).foldl (fun acc v => r (max v acc)) (r (p s)) := by
          rw [List.foldl_map]
      _ = ((rest.map p).map r).foldl max (r (p s)) :=
          foldl_round_max r hkey hid _ _ (hid _)
      _ = (rest.map (fun s2 => r (p s2))).foldl max (r (p s)) := by
          rw [List.map_map]
          rfl

theorem foldl_observe_proj :
    ∀ (l : List Sample) (m : MinMaxState),
      (l.foldl observe m).pv_min = l.foldl (fun c s => some (match c with
        | none => pyFmt 2 s.pv | some c0 => pyFmt 2 (min s.pv c0))) m.pv_min ∧
      (l.foldl observe m).pv_max = l.foldl (fun c s => some (match c with
        | none => pyFmt 2 s.pv | some c0 => pyFmt 2 (max s.pv c0))) m.pv_max ∧
      (l.foldl observe m).error_min = l.foldl (fun c s => some (match c with
        | none => pyFmt 2 s.error | some c0 => pyFmt 2 (min s.error c0))) m.error_min ∧
      (l.foldl observe m).error_max = l.foldl (fun c s => some (match c with
        | none => pyFmt 2 s.error | some c0 => pyFmt 2 (max s.error c0))) m.error_max ∧
      (l.foldl observe m).output_min = l.foldl (fun c s => some (match c with
        | none => pyFmt 0 s.output | some c0 => pyFmt 0 (min s.output c0))) m.output_min ∧
      (l.foldl observe m).output_max = l.foldl (fun c s => some (match c with
        | none => pyFmt 0 s.output | some c0 => pyFmt 0 (max s.output c0))) m.output_max := by
  intro l
  induction l with
  | nil =>
    intro m
    exact ⟨rfl, rfl, rfl, rfl, rfl, rfl⟩
  | cons s rest ih =>
    intro m
    simpa only [List.foldl_cons] using ih (observe m s)

theorem analyzeS_fst (a : StepResponseAnalyzer) :
    (a.analyzeS).1.time = a.time ∧ (a.analyzeS).1.pv = a.pv ∧
    (a.analyzeS).1.sp = a.sp ∧ (a.analyzeS).1.output = a.output := by
  rw [StepResponseAnalyzer.analyzeS]
  by_cases h : a.time.length < 10
  · rw [if_pos h]
    exact ⟨rfl, rfl, rfl, rfl⟩
  · rw [if_neg h]
    cases findStep a.sp with
    | none => exact ⟨rfl, rfl, rfl, rfl⟩
    | some i => exact ⟨rfl, rfl, rfl, rfl⟩

theorem analyzeS_snd (a : StepResponseAnalyzer) :
    (a.analyzeS).2 = analyze a.toTrace := by
  rw [StepResponseAnalyzer.analyzeS, analyze]
  have ht : a.toTrace.time = a.time := rfl
  have hsp : a.toTrace.sp = a.sp := rfl
  rw [ht, hsp]
  by_cases h : a.time.length < 10
  · rw [if_pos h, if_pos h]
  · rw [if_neg h, if_neg h]
    cases findStep a.sp with
    | none => rfl
    | some i => rfl

theorem analyzeFrom_eq (tr : Trace) (i : ℕ) (sIdx eIdx : Option ℤ) (maxPv : ℚ)
    (hrr : riseResult tr i = Except.ok (sIdx, eIdx))
    (hpm : pyMax (pySliceFrom tr.pv (riseStartIdx tr i)) = Except.ok maxPv) :
    analyzeFrom tr i = Except.ok (some
      { rise_time := riseTimeOf tr.time sIdx eIdx
        overshoot := some ((maxPv - finalValue tr i) / stepAmp tr i * 100)
        settling_time := some (settleScan tr.pv tr.time (finalValue tr i)
          (2/100 * stepAmp tr i) (stepStart tr i) (settleIdxs tr i))
        steady_state_error := some (finalValue tr i - npMean (pySliceFrom tr.pv (-20))) }) := by
  simp only [analyzeFrom, hrr, hpm]

theorem analyzeFrom_eq_error (tr : Trace) (i : ℕ) (sIdx eIdx : Option ℤ) (e : PyErr)
    (hrr : riseResult tr i = Except.ok (sIdx, eIdx))
    (hpm : pyMax (pySliceFrom tr.pv (riseStartIdx tr i)) = Except.error e) :
    analyzeFrom tr i = Except.error e := by
  simp only [analyzeFrom, hrr, hpm]

theorem analyze_ok_some_elim {tr : Trace} {m : Metrics}
    (hm : analyze tr = Except.ok (some m)) :
    ∃ (i : ℕ) (sIdx eIdx : Option ℤ) (maxPv : ℚ),
      ¬ tr.time.length < 10 ∧ findStep tr.sp = some i ∧
      riseResult tr i = Except.ok (sIdx, eIdx) ∧
      pyMax (pySliceFrom tr.pv (riseStartIdx tr i)) = Except.ok maxPv ∧
      m = { rise_time := riseTimeOf tr.time sIdx eIdx
            overshoot := some ((maxPv - finalValue tr i) / stepAmp tr i * 100)
            settling_time := some (settleScan tr.pv tr.time (finalValue tr i)
              (2/100 * stepAmp tr i) (stepStart tr i) (settleIdxs tr i))
            steady_state_error :=
              some (finalValue tr i - npMean (pySliceFrom tr.pv (-20))) } := by
  rw [analyze] at hm
  by_cases h10 : tr.time.length < 10
  · rw [if_pos h10] at hm
    exact absurd hm (by simp)
  · rw [if_neg h10] at hm
    cases hfs : findStep tr.sp with
    | none =>
      simp only [hfs] at hm
      exact absurd hm (by simp)
    | some i =>
      simp only [hfs] at hm
      cases hrr : riseResult tr i with
      | error e =>
        rw [analyzeFrom] at hm
        simp only [hrr] at hm
        exact absurd hm (by simp)
      | ok se =>
        obtain ⟨sIdx, eIdx⟩ := se
        cases hpm : pyMax (pySliceFrom tr.pv (riseStartIdx tr i)) with
        | error e =>
          rw [analyzeFrom_eq_error tr i sIdx eIdx e hrr hpm] at hm
          exact absurd hm (by simp)
        | ok maxPv =>
          rw [analyzeFrom_eq tr i sIdx eIdx maxPv hrr hpm] at hm
          refine ⟨i, sIdx, eIdx, maxPv, h10, rfl, hrr, hpm, ?_⟩
          exact (Option.some.inj (Except.ok.inj hm)).symm

theorem analyzeFrom_ne_ok_none (tr : Trace) (i : ℕ) :
    analyzeFrom tr i ≠ Except.ok none := by
  rw [analyzeFrom]
  cases hrr : riseResult tr i with
  | error e => simp
  | ok se =>
    obtain ⟨sIdx, eIdx⟩ := se
    cases hpm : pyMax (pySliceFrom tr.pv (riseStartIdx tr i)) with
    | error e => simp
    | ok maxPv => simp

/-- C4: `analyze()` yields the no-metrics signal (Python `None`, returned
normally, with no partial metrics and no exception) exactly when the trace
holds fewer than 10 samples or no index `i ≥ 1` has
`abs(sp[i] - sp[i-1]) > 0.1`. -/
theorem c4_no_metrics_iff (tr : Trace) :
    analyze tr = Except.ok none ↔
      (tr.time.length < 10 ∨ ∀ j, 1 ≤ j → j < tr.sp.length → ¬ spJump tr.sp j) := by
  constructor
  · intro hm
    rw [analyze] at hm
    by_cases h10 : tr.time.length < 10
    · exact Or.inl h10
    · rw [if_neg h10] at hm
      cases hfs : findStep tr.sp with
      | none => exact Or.inr ((findStep_eq_none_iff tr.sp).mp hfs)
      | some i =>
        simp only [hfs] at hm
        exact absurd hm (analyzeFrom_ne_ok_none tr i)
  · intro h
    rw [analyze]
    by_cases h10 : tr.time.length < 10
    · rw [if_pos h10]
    · rw [if_neg h10]
      rcases h with h10' | hno
      · exact absurd h10' h10
      · rw [(findStep_eq_none_iff tr.sp).mpr hno]

/-- C5: on a trace of at least 10 samples whose first setpoint jump (the
first index `i ≥ 1` with `abs(sp[i] - sp[i-1]) > 0.1`) is at `i`,
`analyze()` stores `step_start_time = time[i]`, `initial_value` = the mean
of pv over the up-to-10 samples preceding `i`, `final_value = sp[i]`, and
`step_amplitude = final_value - initial_value`. -/
theorem c5_step_detection (a : StepResponseAnalyzer) (i : ℕ)
    (h10 : 10 ≤ a.time.length) (h1 : 1 ≤ i) (hlen : i < a.sp.length)
    (hj : spJump a.sp i) (hfirst : ∀ j, j < i → 1 ≤ j → ¬ spJump a.sp j) :
    (a.analyzeS).1.step_start_time = some (a.time.getD i 0) ∧
    (a.analyzeS).1.initial_value = npMean ((a.pv.drop (i - 10)).take (i - (i - 10))) ∧
    (a.analyzeS).1.final_value = a.sp.getD i 0 ∧
    (a.analyzeS).1.step_amplitude =
      a.sp.getD i 0 - npMean ((a.pv.drop (i - 10)).take (i - (i - 10))) := by
  have hfs : findStep a.sp = some i :=
    (findStep_eq_some_iff a.sp i).mpr ⟨h1, hlen, hj, fun j hj1 hjlt => hfirst j hjlt hj1⟩
  rw [StepResponseAnalyzer.analyzeS, if_neg (by omega)]
  simp only [hfs]
  exact ⟨rfl, rfl, rfl, rfl⟩

/-- Witness for C5: the spec scenario — setpoint 25.0 jumping to 50.0 at
sample 20 of a 10 Hz trace gives `step_start_time` = the timestamp of
sample 20 (2.0 s) and `step_amplitude = 25.0`. -/
theorem c5_step_detection_witness :
    (w5.analyzeS).1.step_start_time = some 2 ∧ (w5.analyzeS).1.step_amplitude = 25 := by
  have h := c5_step_detection w5 20 (by decide) (by decide) (by decide) (by decide) (by decide)
  exact ⟨h.1.trans (by decide), h.2.2.2.trans (by decide)⟩

/-- C8: `clear_plot` empties all eight telemetry series and leaves the
extrema tracker unchanged; `clear_minmax` resets all six extrema to "N/A"
and leaves all eight telemetry series unchanged. -/
theorem c8_clear_frame (d : AppData) :
    ((clear_plot d).store.time_data = [] ∧ (clear_plot d).store.pv_data = [] ∧
     (clear_plot d).store.sp_data = [] ∧ (clear_plot d).store.output_data = [] ∧
     (clear_plot d).store.error_data = [] ∧ (clear_plot d).store.p_term_data = [] ∧
     (clear_plot d).store.i_term_data = [] ∧ (clear_plot d).store.d_term_data = [] ∧
     (clear_plot d).minmax = d.minmax) ∧
    ((clear_minmax d).store = d.store ∧
     (clear_minmax d).minmax.pv_min = none ∧ (clear_minmax d).minmax.pv_max = none ∧
     (clear_minmax d).minmax.error_min = none ∧ (clear_minmax d).minmax.error_max = none ∧
     (clear_minmax d).minmax.output_min = none ∧ (clear_minmax d).minmax.output_max = none) :=
  ⟨⟨rfl, rfl, rfl, rfl, rfl, rfl, rfl, rfl, rfl⟩, rfl, rfl, rfl, rfl, rfl, rfl, rfl⟩

/-- C9: `analyze()` leaves the four trace sequences unchanged, and calling
it a second time on the unmodified state returns the identical result
(metrics or error). -/
theorem c9_idempotent (a : StepResponseAnalyzer) :
    ((a.analyzeS).1.time = a.time ∧ (a.analyzeS).1.pv = a.pv ∧
     (a.analyzeS).1.sp = a.sp ∧ (a.analyzeS).1.output = a.output) ∧
    ((a.analyzeS).1.analyzeS).2 = (a.analyzeS).2 := by
  refine ⟨analyzeS_fst a, ?_⟩
  rw [analyzeS_snd, analyzeS_snd]
  obtain ⟨h1, h2, h3, h4⟩ := analyzeS_fst a
  rw [StepResponseAnalyzer.toTrace, StepResponseAnalyzer.toTrace, h1, h2, h3, h4]

/-- C10: whenever `analyze()` returns a metrics snapshot, the overshoot,
settling_time and steady_state_error fields are present; only rise_time
can be absent. -/
theorem c10_always_present (tr : Trace) (m : Metrics)
    (hm : analyze tr = Except.ok (some m)) :
    m.overshoot.isSome = true ∧ m.settling_time.isSome = true ∧
      m.steady_state_error.isSome = true := by
  obtain ⟨i, sIdx, eIdx, maxPv, -, -, -, -, hmeq⟩ := analyze_ok_some_elim hm
  rw [hmeq]
  exact ⟨rfl, rfl, rfl⟩

/-- Witness for C10 on the concrete trace `t10`. -/
theorem c10_always_present_witness :
    m10.overshoot.isSome = true ∧ m10.settling_time.isSome = true ∧
      m10.steady_state_error.isSome = true :=
  c10_always_present t10 m10 (by decide)

/-- C6: whenever `analyze()` detects a step (at index `i`) and returns a
metrics snapshot, `settling_time` equals the backward-scan result over the
post-step indices: the first sample from the end of the trace lying outside
the band of 2% of `step_amplitude` around `final_value` gives
`time[that sample] - step_start_time`; if every scanned sample lies within
the band, it is `time[-1] - step_start_time`. -/
theorem c6_settling_time (tr : Trace) (i : ℕ) (m : Metrics)
    (hfs : findStep tr.sp = some i) (hm : analyze tr = Except.ok (some m)) :
    m.settling_time = some
      (match (settleIdxs tr i).find?
          (fun j => decide (2/100 * stepAmp tr i < |pyGetD tr.pv j - finalValue tr i|)) with
        | some j => pyGetD tr.time j - stepStart tr i
        | none => pyGetD tr.time (-1) - stepStart tr i) := by
  obtain ⟨i2, sIdx, eIdx, maxPv, -, hfs2, -, -, hmeq⟩ := analyze_ok_some_elim hm
  have hii : i2 = i := Option.some.inj (hfs2.symm.trans hfs)
  subst hii
  rw [hmeq]
  show some (settleScan tr.pv tr.time (finalValue tr i2) (2/100 * stepAmp tr i2)
    (stepStart tr i2) (settleIdxs tr i2)) = _
  rw [settleScan_eq]

/-- Witness for C6: on the trace `t6`, pv leaves the 2% band last at sample 3,
so settling_time = 0.3 - 0.1 = 0.2 s. -/
theorem c6_settling_time_witness : m6.settling_time = some (1/5) := by
  have h := c6_settling_time t6 1 m6 (by decide) (by decide)
  exact h.trans (by decide)

/-- C3 counterexample: on the trace `cx3`, the forward scan finds an index
reaching the 10% threshold and an index reaching the 90% threshold (both
index 0, as `riseResult` shows), yet the returned metrics have no
`rise_time`: `if rise_start_idx and rise_end_idx` treats index 0 as false. -/
theorem c3_counterexample :
    riseResult cx3 1 = Except.ok (some 0, some 0) ∧
    analyze cx3 = Except.ok (some
      { rise_time := none
        overshoot := some (-100)
        settling_time := some (2/5)
        steady_state_error := some (-1) }) :=
  ⟨by decide, by decide⟩

/-- C3 (amended): whenever `analyze()` detects a step at index `i`, every
scanned index is in range, and a metrics snapshot is returned, `rise_time`
is present if and only if the scan finds an index reaching the 90%
threshold, finds an index reaching the 10% threshold within the scanned
prefix (which ends at the 90% break), and both indices are nonzero (Python
truthiness of `if rise_start_idx and rise_end_idx`); when present it equals
`time[first index reaching 90%] - time[first index reaching 10%]`. -/
theorem c3_amended_rise_time (tr : Trace) (i : ℕ) (m : Metrics)
    (hfs : findStep tr.sp = some i)
    (hb : ∀ j ∈ scanIdxs tr i, pyInBounds tr.pv j = true)
    (hm : analyze tr = Except.ok (some m)) :
    m.rise_time = riseTimeOf tr.time
      (firstGe tr.pv (rise10 tr i) (upToFirst tr.pv (rise90 tr i) (scanIdxs tr i)))
      (firstGe tr.pv (rise90 tr i) (scanIdxs tr i)) := by
  obtain ⟨i2, sIdx, eIdx, maxPv, -, hfs2, hrr, -, hmeq⟩ := analyze_ok_some_elim hm
  have hii : i2 = i := Option.some.inj (hfs2.symm.trans hfs)
  subst hii
  rw [riseResult, riseScan_eq tr.pv (rise10 tr i2) (rise90 tr i2) (scanIdxs tr i2) none hb]
    at hrr
  have hp := Except.ok.inj hrr
  rw [Prod.mk.injEq] at hp
  obtain ⟨h1, h2⟩ := hp
  simp only [Option.none_or] at h1
  rw [hmeq]
  show riseTimeOf tr.time sIdx eIdx = _
  rw [← h1, ← h2]

/-- Witness for C3 (amended): on the trace `t3` the scan reaches 10% first
at index 3 and 90% first at index 4, so rise_time = 0.4 - 0.3 = 0.1 s. -/
theorem c3_amended_rise_time_witness : m3.rise_time = some (1/10) := by
  have h := c3_amended_rise_time t3 1 m3 (by decide) (by decide) (by decide)
  exact h.trans (by decide)

/-- C1 counterexample: `cx1` is a recorded trace (10 samples, equal-length
sequences) on which `analyze()` raises `ValueError`: the detected step has
`step_start_time = 10`, hence scan start index `int(10*10) = 100`, at/past
the end of the trace, and `max()` is applied to an empty slice. -/
theorem c1_counterexample : analyze cx1 = Except.error PyErr.valueError := by decide

/-- C1 (amended): `analyze()` returns normally — either no metrics or a
metrics snapshot — on every trace (empty traces and zero detected
`step_amplitude` included) in which, whenever at least 10 samples are
present and a step is detected, the scan start index
`int(step_start_time*10)` lies within `[-n, n)` for `n` the trace length;
outside that range the code raises (`ValueError` at or past the end,
`IndexError` below `-n`). -/
theorem c1_amended_total (tr : Trace)
    (hband : ∀ i, ¬ tr.time.length < 10 → findStep tr.sp = some i →
      -((tr.pv.length : ℤ)) ≤ riseStartIdx tr i ∧ riseStartIdx tr i < (tr.pv.length : ℤ)) :
    ∃ r, analyze tr = Except.ok r := by
  rw [analyze]
  by_cases h10 : tr.time.length < 10
  · rw [if_pos h10]
    exact ⟨none, rfl⟩
  · rw [if_neg h10]
    cases hfs : findStep tr.sp with
    | none => exact ⟨none, rfl⟩
    | some i =>
      obtain ⟨hlb, hub⟩ := hband i h10 hfs
      have hb : ∀ j ∈ scanIdxs tr i, pyInBounds tr.pv j = true := by
        intro j hj
        rw [scanIdxs, mem_intRange] at hj
        rw [pyInBounds]
        simp only [Bool.and_eq_true, decide_eq_true_eq]
        omega
      have hrr := riseScan_eq tr.pv (rise10 tr i) (rise90 tr i) (scanIdxs tr i) none hb
      have h0 : 0 < tr.pv.length := by omega
      obtain ⟨mv, hmv⟩ := pyMax_ok_of_ne_nil (pySliceFrom_ne_nil h0 hub)
      exact ⟨_, analyzeFrom_eq tr i _ _ mv hrr hmv⟩

/-- Witness for C1 (amended): the empty trace satisfies the scope condition
vacuously and analyzes to the no-metrics signal. -/
theorem c1_amended_total_witness :
    (∃ r, analyze { time := [], pv := [], sp := [], output := [] } = Except.ok r) ∧
    analyze { time := [], pv := [], sp := [], output := [] } = Except.ok none :=
  ⟨c1_amended_total _ (fun _ h10 _ => absurd (by decide) h10), by decide⟩

/-- C2 counterexample: observing pv = 1.004 once from the cleared tracker
sets pv_min to the display-rounded value 1.00, not to the exact observed
value (which is also the exact minimum so far). -/
theorem c2_counterexample :
    (update_minmax MinMaxState.na (251/250) 0 0 0).pv_min = some 1 ∧
      (1 : ℚ) ≠ 251/250 :=
  ⟨by decide, by decide⟩

/-- C2 (amended): after any sequence of observations since the last clear,
each tracked extremum equals the exact min (resp. max) of the
display-rounded observations — pv and error rounded to 2 decimal places,
output to 0 — and an unset metric is initialized to the rounded first
observation (`List.min?`/`List.max?` are `none` on no observations). -/
theorem c2_amended_extrema (l : List Sample) :
    (l.foldl observe MinMaxState.na).pv_min = (l.map (fun s => pyFmt 2 s.pv)).min? ∧
    (l.foldl observe MinMaxState.na).pv_max = (l.map (fun s => pyFmt 2 s.pv)).max? ∧
    (l.foldl observe MinMaxState.na).error_min = (l.map (fun s => pyFmt 2 s.error)).min? ∧
    (l.foldl observe MinMaxState.na).error_max = (l.map (fun s => pyFmt 2 s.error)).max? ∧
    (l.foldl observe MinMaxState.na).output_min = (l.map (fun s => pyFmt 0 s.output)).min? ∧
    (l.foldl observe MinMaxState.na).output_max = (l.map (fun s => pyFmt 0 s.output)).max? := by
  obtain ⟨p1, p2, p3, p4, p5, p6⟩ := foldl_observe_proj l MinMaxState.na
  refine ⟨?_, ?_, ?_, ?_, ?_, ?_⟩
  · rw [p1]
    exact foldl_track_min_none (pyFmt 2) Sample.pv (pyFmt_min 2) (pyFmt_idem 2) l
  · rw [p2]
    exact foldl_track_max_none (pyFmt 2) Sample.pv (pyFmt_max 2) (pyFmt_idem 2) l
  · rw [p3]
    exact foldl_track_min_none (pyFmt 2) Sample.error (pyFmt_min 2) (pyFmt_idem 2) l
  · rw [p4]
    exact foldl_track_max_none (pyFmt 2) Sample.error (pyFmt_max 2) (pyFmt_idem 2) l
  · rw [p5]
    exact foldl_track_min_none (pyFmt 0) Sample.output (pyFmt_min 0) (pyFmt_idem 0) l
  · rw [p6]
    exact foldl_track_max_none (pyFmt 0) Sample.output (pyFmt_max 0) (pyFmt_idem 0) l

/-- C7: after ingesting any sequence of samples into the startup store, each
of the eight series equals the ingested values with the oldest dropped
beyond capacity 864000 (so for `capacity+1` ingests the store holds samples
2..capacity+1 in order), all eight series have equal length, and that
length never exceeds 864000. -/
theorem c7_capacity_fifo (l : List Sample) :
    ((l.foldl process_data AppData.init).store.time_data
        = (l.map Sample.t).drop (l.length - max_points) ∧
     (l.foldl process_data AppData.init).store.pv_data
        = (l.map Sample.pv).drop (l.length - max_points) ∧
     (l.foldl process_data AppData.init).store.sp_data
        = (l.map Sample.sp).drop (l.length - max_points) ∧
     (l.foldl process_data AppData.init).store.output_data
        = (l.map Sample.output).drop (l.length - max_points) ∧
     (l.foldl process_data AppData.init).store.error_data
        = (l.map Sample.error).drop (l.length - max_points) ∧
     (l.foldl process_data AppData.init).store.p_term_data
        = (l.map Sample.p_term).drop (l.length - max_points) ∧
     (l.foldl process_data AppData.init).store.i_term_data
        = (l.map Sample.i_term).drop (l.length - max_points) ∧
     (l.foldl process_data AppData.init).store.d_term_data
        = (l.map Sample.d_term).drop (l.length - max_points)) ∧
    (l.foldl process_data AppData.init).store.time_data.length ≤ max_points ∧
    ((l.foldl process_data AppData.init).store.pv_data.length
        = (l.foldl process_data AppData.init).store.time_data.length ∧
     (l.foldl process_data AppData.init).store.sp_data.length
        = (l.foldl process_data AppData.init).store.time_data.length ∧
     (l.foldl process_data AppData.init).store.output_data.length
        = (l.foldl process_data AppData.init).store.time_data.length ∧
     (l.foldl process_data AppData.init).store.error_data.length
        = (l.foldl process_data AppData.init).store.time_data.length ∧
     (l.foldl process_data AppData.init).store.p_term_data.length
        = (l.foldl process_data AppData.init).store.time_data.length ∧
     (l.foldl process_data AppData.init).store.i_term_data.length
        = (l.foldl process_data AppData.init).store.time_data.length ∧
     (l.foldl process_data AppData.init).store.d_term_data.length
        = (l.foldl process_data AppData.init).store.time_data.length) := by
  have hst : (l.foldl process_data AppData.init).store = l.foldl ingest Store.empty :=
    foldl_process_data_store l AppData.init
  obtain ⟨e1, e2, e3, e4, e5, e6, e7, e8⟩ := foldl_ingest_series l Store.empty
  have hcap : 0 < max_points := by norm_num [max_points]
  have key : ∀ xs : List ℚ,
      xs.foldl (dequeAppend max_points) [] = xs.drop (xs.length - max_points) := by
    intro xs
    have h := foldl_dequeAppend hcap xs [] (by simp)
    simpa using h
  have s1 : (l.foldl process_data AppData.init).store.time_data
      = (l.map Sample.t).drop (l.length - max_points) := by
    rw [hst, e1]
    rw [show Store.empty.time_data = ([] : List ℚ) from rfl, key, List.length_map]
  have s2 : (l.foldl process_data AppData.init).store.pv_data
      = (l.map Sample.pv).drop (l.length - max_points) := by
    rw [hst, e2]
    rw [show Store.empty.pv_data = ([] : List ℚ) from rfl, key, List.length_map]
  have s3 : (l.foldl process_data AppData.init).store.sp_data
      = (l.map Sample.sp).drop (l.length - max_points) := by
    rw [hst, e3]
    rw [show Store.empty.sp_data = ([] : List ℚ) from rfl, key, List.length_map]
  have s4 : (l.foldl process_data AppData.init).store.output_data
      = (l.map Sample.output).drop (l.length - max_points) := by
    rw [hst, e4]
    rw [show Store.empty.output_data = ([] : List ℚ) from rfl, key, List.length_map]
  have s5 : (l.foldl process_data AppData.init).store.error_data
      = (l.map Sample.error).drop (l.length - max_points) := by
    rw [hst, e5]
    rw [show Store.empty.error_data = ([] : List ℚ) from rfl, key, List.length_map]
  have s6 : (l.foldl process_data AppData.init).store.p_term_data
      = (l.map Sample.p_term).drop (l.length - max_points) := by
    rw [hst, e6]
    rw [show Store.empty.p_term_data = ([] : List ℚ) from rfl, key, List.length_map]
  have s7 : (l.foldl process_data AppData.init).store.i_term_data
      = (l.map Sample.i_term).drop (l.length - max_points) := by
    rw [hst, e7]
    rw [show Store.empty.i_term_data = ([] : List ℚ) from rfl, key, List.length_map]
  have s8 : (l.foldl process_data AppData.init).store.d_term_data
      = (l.map Sample.d_term).drop (l.length - max_points) := by
    rw [hst, e8]
    rw [show Store.empty.d_term_data = ([] : List ℚ) from rfl, key, List.length_map]
  refine ⟨⟨s1, s2, s3, s4, s5, s6, s7, s8⟩, ?_, ?_, ?_, ?_, ?_, ?_, ?_, ?_⟩
  · rw [s1]
    simp only [List.length_drop, List.length_map]
    omega
  · rw [s1, s2]
    simp [List.length_drop, List.length_map]
  · rw [s1, s3]
    simp [List.length_drop, List.length_map]
  · rw [s1, s4]
    simp [List.length_drop, List.length_map]
  · rw [s1, s5]
    simp [List.length_drop, List.length_map]
  · rw [s1, s6]
    simp [List.length_drop, List.length_map]
  · rw [s1, s7]
    simp [List.length_drop, List.length_map]
  · rw [s1, s8]
    simp [List.length_drop, List.length_map]

end Core

end PID
